import Mathlib

/-!
Verification of the SafeDrop file-sharing tool against its design
specification.  Strings from the Python source are modelled as `List Char`,
byte sequences as `List Nat`, filesystem paths as lists of path segments,
and the JSON metadata document as an association list.  Timestamps are
modelled as integers (the code only ever compares them).
-/

namespace SafeDrop

set_option maxRecDepth 8000

/-- Convert a Lean string literal to the character-list representation used
throughout the development. -/
def s2c (s : String) : List Char := s.data

/-- Convert an ASCII string literal to a byte sequence. -/
def s2b (s : String) : List Nat := s.data.map Char.toNat

/-- Python `str.strip()`: remove leading and trailing whitespace. -/
def trimL (cs : List Char) : List Char :=
  ((cs.dropWhile Char.isWhitespace).reverse.dropWhile Char.isWhitespace).reverse

/-- Python `str.upper()` restricted to ASCII, matching the identifiers the
program manipulates. -/
def toUpperL (cs : List Char) : List Char := cs.map Char.toUpper

/-- Python `s.replace("-", "")`: drop every dash. -/
def dropDashes (cs : List Char) : List Char := cs.filter (fun c => c ≠ '-')

/-- Python `s.replace(" ", "")`: drop every space. -/
def dropSpaces (cs : List Char) : List Char := cs.filter (fun c => c ≠ ' ')

/-- Configuration constant `ID_LENGTH` from `config.py`. -/
def ID_LENGTH : Nat := 12

/-- The identifier alphabet from `id_generator.py`: upper-case letters and
digits with the visually ambiguous `O`, `I`, `0`, `1` removed. -/
def _ALPHABET : List Char :=
  (s2c "ABCDEFGHIJKLMNOPQRSTUVWXYZ" ++ s2c "0123456789").filter
    (fun c => c ≠ 'O' && c ≠ 'I' && c ≠ '0' && c ≠ '1')

/-- Embedding of `id_generator.strip_dashes`: remove dashes and upper-case. -/
def strip_dashes (file_id : List Char) : List Char :=
  toUpperL (dropDashes file_id)

/-- Embedding of `id_generator.normalize_id`: strip whitespace, upper-case,
drop dashes and spaces; when exactly `ID_LENGTH` characters remain,
re-insert dashes in canonical 4-4-4 position. -/
def normalize_id (file_id : List Char) : List Char :=
  let raw := dropSpaces (dropDashes (toUpperL (trimL file_id)))
  if raw.length = ID_LENGTH then
    let g := ID_LENGTH / 3
    (raw.take g) ++ ['-'] ++ ((raw.drop g).take g) ++ ['-'] ++ (raw.drop (2 * g))
  else
    toUpperL (trimL file_id)

/-- Embedding of `id_generator.is_valid_id_format`: strip edge whitespace,
upper-case, drop dashes, then demand exactly `ID_LENGTH` characters all of
which lie in the restricted alphabet. -/
def is_valid_id_format (file_id : List Char) : Bool :=
  let normalized := dropDashes (toUpperL (trimL file_id))
  if normalized.length ≠ ID_LENGTH then false
  else normalized.all (fun c => _ALPHABET.contains c)

/-! Association lists model both Python dicts (the metadata document) and
the filesystem (path to content).  `setA` is dict assignment (upsert
preserving insertion order), `removeA` is `del`. -/

/-- Dictionary lookup. -/
def lookupA {α β : Type} [DecidableEq α] : List (α × β) → α → Option β
  | [], _ => none
  | (k, v) :: t, q => if k = q then some v else lookupA t q

/-- Dictionary assignment: replace the binding in place, or append. -/
def setA {α β : Type} [DecidableEq α] : List (α × β) → α → β → List (α × β)
  | [], k, v => [(k, v)]
  | (k', v') :: t, k, v =>
      if k' = k then (k, v) :: t else (k', v') :: setA t k v

/-- Dictionary deletion: drop the binding of the key. -/
def removeA {α β : Type} [DecidableEq α] : List (α × β) → α → List (α × β)
  | [], _ => []
  | (k', v') :: t, k =>
      if k' = k then removeA t k else (k', v') :: removeA t k

/-! Filesystem and symbolic cryptography.  File bytes are either raw bytes
or a Fernet token; the token constructor is the symbolic rendering of
authenticated encryption. -/

/-- Symmetric key material (the base64 Fernet key string, as bytes). -/
abbrev Key : Type := List Nat

/-- File content: raw bytes, or a Fernet token wrapping some content. -/
inductive Bytes : Type
  | raw (bs : List Nat)
  | tok (k : Key) (body : Bytes)
deriving DecidableEq

/-- Error taxonomy of the storage and crypto layer (§7 of the spec). -/
inductive Err : Type
  | traversal
  | notFound
  | authFailure
deriving DecidableEq

/-- Modelled from the spec: `cryptography.fernet` is an external library;
§4.2 specifies authenticated encryption whose decrypt succeeds exactly
under the encrypting key.  Symbolically, encryption wraps the content in a
token carrying the key. -/
def fernetEncrypt (body : Bytes) (k : Key) : Bytes := .tok k body

/-- Modelled from the spec: Fernet decryption authenticates the token and
fails with `InvalidToken` (an `AuthenticationFailure`, §7) on a key
mismatch or on bytes that are not a token under that key. -/
def fernetDecrypt (c : Bytes) (k : Key) : Except Err Bytes :=
  match c with
  | .raw _ => .error .authFailure
  | .tok k' body => if k' = k then .ok body else .error .authFailure

/-- A path, resolved, as the list of segments below the filesystem root. -/
abbrev Segs : Type := List (List Char)

/-- The filesystem: a map from resolved paths to file contents. -/
abbrev FS : Type := List (Segs × Bytes)

/-- Embedding of `crypto.encrypt_file`: read the source bytes, encrypt
under the key, write the token at the destination.  The pair result
carries the outcome and the (possibly updated) filesystem. -/
def encrypt_file (src dest : Segs) (k : Key) (fs : FS) :
    Except Err Unit × FS :=
  match lookupA fs src with
  | none => (.error .notFound, fs)
  | some body => (.ok (), setA fs dest (fernetEncrypt body k))

/-- Embedding of `crypto.decrypt_file`: read the ciphertext, decrypt, and
only on success write the plaintext at the destination — the write sits
after the `try`, so an `InvalidToken` leaves the filesystem untouched. -/
def decrypt_file (src dest : Segs) (k : Key) (fs : FS) :
    Except Err Unit × FS :=
  match lookupA fs src with
  | none => (.error .notFound, fs)
  | some c =>
      match fernetDecrypt c k with
      | .error e => (.error e, fs)
      | .ok body => (.ok (), setA fs dest body)

/-! Lexical path arithmetic, mirroring `pathlib` joining and `resolve()`
on a filesystem without symlinks. -/

/-- Split a relative path string on slashes (pathlib parsing of the
string appended to a base path). -/
def splitSlash (cs : List Char) : List (List Char) := cs.splitOn '/'

/-- One step of lexical resolution: `..` pops a segment, `.` and empty
segments vanish, anything else is pushed. -/
def resolveStep (acc : List (List Char)) (s : List Char) : List (List Char) :=
  if s = s2c ".." then acc.dropLast
  else if s = [] ∨ s = s2c "." then acc
  else acc ++ [s]

/-- Lexical resolution of a segment list (Python `Path.resolve()` without
symlinks: `..` above the root stays at the root). -/
def resolveSegs (segs : List (List Char)) : List (List Char) :=
  segs.foldl resolveStep []

/-- Python `str(path)` for an absolute path: slash-joined segments. -/
def renderPath (segs : List (List Char)) : List Char :=
  segs.foldl (fun acc s => acc ++ '/' :: s) []

/-- Definition following the spec (§4.4): a resolved path lies lexically
under the resolved storage root iff the root's segments are a prefix of
the path's segments. -/
def liesUnderRoot (root : Segs) (p : Segs) : Bool :=
  List.isPrefixOf (resolveSegs root) p

/-- Embedding of `storage._safe_storage_path`: build
`root / (dashless id + ".sdf")`, resolve it, and accept exactly when the
rendered candidate string starts with the rendered resolved root — the
`str(candidate).startswith(str(STORAGE_DIR.resolve()))` test of the
source.  A failed test is the `ValueError` (traversal) of the source. -/
def _safe_storage_path (root : Segs) (file_id : List Char) :
    Except Err Segs :=
  let stored_name := dropDashes file_id ++ s2c ".sdf"
  let candidate := resolveSegs (root ++ splitSlash stored_name)
  if List.isPrefixOf (renderPath (resolveSegs root)) (renderPath candidate) then
    .ok candidate
  else
    .error .traversal

/-- Embedding of `storage.store_file`: compute the safe path (propagating
its error), then encrypt the source file onto it. -/
def store_file (root : Segs) (src_path : Segs) (file_id : List Char)
    (encryption_key : Key) (fs : FS) : Except Err Segs × FS :=
  match _safe_storage_path root file_id with
  | .error e => (.error e, fs)
  | .ok dest =>
      match encrypt_file src_path dest encryption_key fs with
      | (.error e, fs') => (.error e, fs')
      | (.ok _, fs') => (.ok dest, fs')

/-- Python `Path(name).suffix`: the final extension with its dot; empty
when there is no dot, the only dot leads the name, or the name ends with
the dot. -/
def fileSuffix (name : List Char) : List Char :=
  let afterDot := (name.reverse.takeWhile (fun c => c ≠ '.')).reverse
  if afterDot.length = name.length then []
  else if afterDot.length = 0 then []
  else if afterDot.length + 1 = name.length then []
  else '.' :: afterDot

/-- Stem of a filename: the name with `fileSuffix` removed. -/
def fileStem (name : List Char) : List Char :=
  name.take (name.length - (fileSuffix name).length)

/-- Python `Path(name).name` of a possibly slashed string: its last
slash-separated component. -/
def baseName (name : List Char) : List Char :=
  (splitSlash name).getLastD []

/-- Collision renaming of `storage.retrieve_file` / `flatten_storage`:
append `_1`, `_2`, … before the extension until the name is free.  The
fuel bounds the loop; it exceeds the number of occupied names, so the
loop always finds a free name before fuel runs out. -/
def findFreeName (fs : FS) (destDir : Segs) (stem suffix : List Char) :
    Nat → Nat → Segs
  | 0, k => destDir ++ [stem ++ '_' :: (Nat.repr k).data ++ suffix]
  | fuel + 1, k =>
      let cand := destDir ++ [stem ++ '_' :: (Nat.repr k).data ++ suffix]
      if (lookupA fs cand).isSome then findFreeName fs destDir stem suffix fuel (k + 1)
      else cand

/-- Embedding of `storage.retrieve_file`: safe path (errors propagate),
existence check, output-name sanitisation (directory components stripped,
empty name replaced), collision renaming, then decrypt into place. -/
def retrieve_file (root : Segs) (file_id : List Char) (dest_dir : Segs)
    (original_name : List Char) (encryption_key : Key) (fs : FS) :
    Except Err Segs × FS :=
  match _safe_storage_path root file_id with
  | .error e => (.error e, fs)
  | .ok stored_path =>
      if (lookupA fs stored_path).isSome = false then (.error .notFound, fs)
      else
        let safe_name :=
          if baseName original_name = [] then s2c "safedrop_file"
          else baseName original_name
        let first := dest_dir ++ [safe_name]
        let dest_path :=
          if (lookupA fs first).isSome then
            findFreeName fs dest_dir (fileStem safe_name) (fileSuffix safe_name)
              (fs.length + 1) 1
          else first
        match decrypt_file stored_path dest_path encryption_key fs with
        | (.error e, fs') => (.error e, fs')
        | (.ok _, fs') => (.ok dest_path, fs')

/-- Embedding of `storage.delete_stored_file`: a `ValueError` from the
safe-path computation is caught and becomes the plain return `False`;
otherwise remove the object if present and report whether anything was
removed. -/
def delete_stored_file (root : Segs) (file_id : List Char) (fs : FS) :
    Bool × FS :=
  match _safe_storage_path root file_id with
  | .error _ => (false, fs)
  | .ok stored_path =>
      if (lookupA fs stored_path).isSome then (true, removeA fs stored_path)
      else (false, fs)

/-- Embedding of `storage.get_storage_path`: the path when the object
exists, `None` on absence and on a caught traversal `ValueError`. -/
def get_storage_path (root : Segs) (file_id : List Char) (fs : FS) :
    Option Segs :=
  match _safe_storage_path root file_id with
  | .error _ => none
  | .ok p => if (lookupA fs p).isSome then some p else none

/-- A concrete resolved storage root (`~/.safedrop/storage`) used to
evaluate the storage operations at concrete inputs. -/
def demoRoot : Segs := [s2c "home", s2c "user", s2c ".safedrop", s2c "storage"]

/-! The threat scanner (`security.py`).  A file is its name, its bytes on
disk, and a readability flag standing for whether `stat`/`open` succeed
(the fail-open branches of the source). -/

/-- A file as the scanner and the upload flow see it. -/
structure SFile where
  name : List Char
  content : List Nat
  readable : Bool
deriving DecidableEq

/-- The `(is_safe, reason)` pair returned by every check. -/
abbrev ScanResult : Type := Bool × List Char

/-- Python `str.lower()` restricted to ASCII. -/
def toLowerL (cs : List Char) : List Char := cs.map Char.toLower

/-- Configuration constant `DANGEROUS_EXTENSIONS` from `config.py`. -/
def DANGEROUS_EXTENSIONS : List (List Char) :=
  ([".exe", ".bat", ".cmd", ".com", ".scr", ".pif",
    ".msi", ".msp", ".mst", ".vbs", ".vbe", ".js",
    ".jse", ".wsf", ".wsh", ".ps1", ".ps1xml", ".ps2",
    ".ps2xml", ".psc1", ".psc2", ".msh", ".msh1", ".msh2",
    ".mshxml", ".msh1xml", ".msh2xml", ".reg", ".inf",
    ".sh", ".bash", ".zsh", ".ksh", ".csh", ".fish",
    ".elf", ".out", ".run",
    ".dll", ".so", ".dylib", ".sys", ".drv",
    ".jar", ".jnlp", ".class",
    ".xlsm", ".xlsb", ".xltm", ".docm", ".dotm",
    ".pptm", ".potm", ".ppam", ".ppsm", ".sldm",
    ".hta", ".cpl", ".gadget", ".application",
    ".appref-ms", ".lnk", ".url"] : List String).map s2c

/-- Embedding of `security.check_extension`: reject when the lower-cased
suffix of the filename is on the deny-list. -/
def check_extension (f : SFile) : ScanResult :=
  let ext := toLowerL (fileSuffix f.name)
  if DANGEROUS_EXTENSIONS.contains ext then
    (false, s2c "Dangerous file extension detected: " ++ ext)
  else (true, [])

/-- Configuration constant `DANGEROUS_SIGNATURES` from `config.py`:
`(offset, byte pattern, description)` triples. -/
def DANGEROUS_SIGNATURES : List (Nat × List Nat × List Char) :=
  [(0, [77, 90], s2c "Windows PE executable (MZ header)"),
   (0, [127, 69, 76, 70], s2c "Linux ELF executable"),
   (0, [202, 254, 186, 190], s2c "Java class file / Mach-O fat binary"),
   (0, [254, 237, 250, 206], s2c "Mach-O 32-bit executable"),
   (0, [254, 237, 250, 207], s2c "Mach-O 64-bit executable"),
   (0, [206, 250, 237, 254], s2c "Mach-O 32-bit (reversed)"),
   (0, [207, 250, 237, 254], s2c "Mach-O 64-bit (reversed)"),
   (0, [35, 33, 47], s2c "Unix shebang script"),
   (0, [35, 33], s2c "Unix shebang script"),
   (0, [80, 75, 3, 4], s2c "ZIP/JAR archive (may contain executables)"),
   (0, [208, 207, 17, 224], s2c "Microsoft Office OLE2 compound document")]

/-- The signature-table loop of `security.check_magic_bytes`: first
matching signature rejects. -/
def magicLoop (header : List Nat) :
    List (Nat × List Nat × List Char) → ScanResult
  | [] => (true, [])
  | (off, sig, desc) :: rest =>
      if (header.drop off).take sig.length = sig then
        (false, s2c "Dangerous file signature detected: " ++ desc)
      else magicLoop header rest

/-- Embedding of `security.check_magic_bytes`: unreadable files pass
(fail open); otherwise compare the first 16 bytes against the table. -/
def check_magic_bytes (f : SFile) : ScanResult :=
  if f.readable = false then (true, [])
  else magicLoop (f.content.take 16) DANGEROUS_SIGNATURES

/-- Configuration constant `ENTROPY_THRESHOLD` from `config.py`. -/
noncomputable def ENTROPY_THRESHOLD : ℝ := 15 / 2

/-- Configuration constant `ENTROPY_SAMPLE_SIZE` from `config.py`. -/
def ENTROPY_SAMPLE_SIZE : Nat := 65536

/-- Embedding of `security._calculate_entropy`: Shannon entropy, base 2,
over the frequencies of the 256 byte values. -/
noncomputable def _calculate_entropy (data : List Nat) : ℝ :=
  if data.length = 0 then 0
  else
    -(∑ b ∈ Finset.range 256,
      if 0 < data.count b then
        ((data.count b : ℝ) / data.length) *
          Real.logb 2 ((data.count b : ℝ) / data.length)
      else 0)

/-- The comparison `entropy > ENTROPY_THRESHOLD` of the source, as a
(classically decided) boolean. -/
noncomputable def entropyHigh (sample : List Nat) : Bool :=
  @decide (ENTROPY_THRESHOLD < _calculate_entropy sample)
    (Classical.propDecidable _)

/-- Embedding of `security.check_entropy`: unreadable files pass, samples
under 512 bytes are exempt, otherwise reject exactly when the entropy of
the leading `ENTROPY_SAMPLE_SIZE` bytes exceeds the threshold. -/
noncomputable def check_entropy (f : SFile) : ScanResult :=
  if f.readable = false then (true, [])
  else
    let sample := f.content.take ENTROPY_SAMPLE_SIZE
    if sample.length < 512 then (true, [])
    else if entropyHigh sample then
      (false,
       s2c "Suspiciously high entropy - file may be packed, encrypted, or obfuscated malware.")
    else (true, [])

/-- Configuration constant `SUSPICIOUS_PATTERNS` from `config.py`.  The
pattern targeting Python dynamic import quotes its argument; byte 39 is
that quote character. -/
def SUSPICIOUS_PATTERNS : List (List Nat) :=
  [s2b "Invoke-WebRequest", s2b "IEX(", s2b "Invoke-Expression",
   s2b "DownloadString", s2b "DownloadFile", s2b "Net.WebClient",
   s2b "Start-Process", s2b "powershell -enc", s2b "powershell -e ",
   s2b "__import__(" ++ [39] ++ s2b "os" ++ [39] ++ s2b ")",
   s2b "subprocess.call", s2b "subprocess.Popen", s2b "os.system(",
   s2b "eval(base64", s2b "exec(base64", s2b "exec(compile",
   s2b "curl | bash", s2b "wget | bash", s2b "curl|bash", s2b "wget|bash",
   s2b "bash -i >& /dev/tcp", s2b "/bin/sh -i", s2b "nc -e /bin/sh",
   s2b "base64_decode", s2b "fromCharCode", s2b "String.fromCharCode",
   s2b "unescape(", s2b "ActiveXObject", s2b "WScript.Shell",
   s2b "Shell.Application"]

/-- Python `bytes.upper()` on one byte: ASCII letters only. -/
def byteUpper (b : Nat) : Nat := if 97 ≤ b ∧ b ≤ 122 then b - 32 else b

/-- Python `bytes.upper()`. -/
def bytesUpper (bs : List Nat) : List Nat := bs.map byteUpper

/-- Python `needle in hay` on bytes: contiguous-substring search. -/
def containsSub (needle : List Nat) : List Nat → Bool
  | [] => List.isPrefixOf needle []
  | b :: t => List.isPrefixOf needle (b :: t) || containsSub needle t

/-- The pattern loop of `security.check_script_patterns`: first pattern
found (case-insensitively) as a substring rejects. -/
def patLoop (content_upper : List Nat) : List (List Nat) → ScanResult
  | [] => (true, [])
  | p :: rest =>
      if containsSub (bytesUpper p) content_upper then
        (false, s2c "Suspicious script pattern detected: " ++ p.map Char.ofNat)
      else patLoop content_upper rest

/-- The 10 MB ceiling of `security.check_script_patterns`. -/
def MAX_SCAN_SIZE : Nat := 10 * 1024 * 1024

/-- Embedding of `security.check_script_patterns`: unreadable files and
files over the ceiling pass; otherwise search the upper-cased content for
the configured patterns. -/
def check_script_patterns (f : SFile) : ScanResult :=
  if f.readable = false then (true, [])
  else if MAX_SCAN_SIZE < f.content.length then (true, [])
  else patLoop (bytesUpper f.content) SUSPICIOUS_PATTERNS

/-- The ordered check list of `security.scan_file` (names in the source
are only used for logging and are dropped here). -/
noncomputable def scanChecks : List (SFile → ScanResult) :=
  [check_extension, check_magic_bytes, check_entropy, check_script_patterns]

/-- The check loop of `security.scan_file`: the first failing check is
returned and later checks are not run. -/
def runChecks (f : SFile) : List (SFile → ScanResult) → ScanResult
  | [] => (true, [])
  | check_fn :: rest =>
      let r := check_fn f
      if r.1 then runChecks f rest else r

/-- Embedding of `security.scan_file`: run the four checks in their fixed
order through the short-circuiting loop. -/
noncomputable def scan_file (f : SFile) : ScanResult := runChecks f scanChecks

/-! The metadata ledger (`metadata.py`).  The JSON document is an
association list from storage keys to records.  The `expiry_time` string
field is abstracted to `Option (Option Int)`: `none` is a null field,
`some none` a present but unparseable timestamp (`datetime.fromisoformat`
raises `ValueError`), `some (some t)` a well-formed instant `t`. -/

/-- One metadata record, with the fields of the schema in `metadata.py`. -/
structure FileRecord where
  id : List Char
  original_name : List Char
  stored_name : List Char
  size : Nat
  upload_time : Int
  expiry_time : Option (Option Int)
  download_count : Nat
  auto_delete : Bool
  encryption_key : Key
  note : List Char
deriving DecidableEq

/-- The metadata document. -/
abbrev Doc : Type := List (List Char × FileRecord)

/-- Embedding of `metadata.save_metadata`: upsert under the dash-stripped
(but not upper-cased) id of the record. -/
def save_metadata (record : FileRecord) (doc : Doc) : Doc :=
  setA doc (dropDashes record.id) record

/-- Embedding of `metadata.get_metadata`: look up under the dash-stripped
upper-cased form of the requested id. -/
def get_metadata (file_id : List Char) (doc : Doc) : Option FileRecord :=
  lookupA doc (toUpperL (dropDashes file_id))

/-- Embedding of `metadata.delete_metadata`. -/
def delete_metadata (file_id : List Char) (doc : Doc) : Bool × Doc :=
  let key := toUpperL (dropDashes file_id)
  if (lookupA doc key).isSome then (true, removeA doc key)
  else (false, doc)

/-- Embedding of `metadata.update_metadata`; the partial field dict is
modelled as the record transformation it performs. -/
def update_metadata (file_id : List Char) (updates : FileRecord → FileRecord)
    (doc : Doc) : Bool × Doc :=
  let key := toUpperL (dropDashes file_id)
  match lookupA doc key with
  | none => (false, doc)
  | some r => (true, setA doc key (updates r))

/-- Embedding of `metadata.list_all`. -/
def list_all (doc : Doc) : List FileRecord := doc.map (fun kr => kr.2)

/-- The `expiry <= now` test of `metadata.cleanup_expired`; absent and
unparseable expiry fields never count as expired. -/
def isExpired (now : Int) (r : FileRecord) : Bool :=
  match r.expiry_time with
  | some (some t) => decide (t ≤ now)
  | _ => false

/-- Observable side effects of the expiry sweep, in order: object-store
delete for an id, metadata-entry removal for a key, document persist. -/
inductive Event : Type
  | delObj (id : List Char)
  | delMeta (key : List Char)
  | persist
deriving DecidableEq

/-- The removal loop of `metadata.cleanup_expired`: for each collected
key, delete the stored object, then drop the metadata entry. -/
def sweepLoop (root : Segs) :
    List (List Char) → Doc → FS → Nat → List Event →
      Nat × Doc × FS × List Event
  | [], doc, fs, removed, evs => (removed, doc, fs, evs)
  | k :: rest, doc, fs, removed, evs =>
      match lookupA doc k with
      | none => sweepLoop root rest doc fs removed evs
      | some record =>
          let d := delete_stored_file root record.id fs
          sweepLoop root rest (removeA doc k) d.2 (removed + 1)
            (evs ++ [Event.delObj record.id, Event.delMeta k])

/-- Embedding of `metadata.cleanup_expired`: collect the past-due keys,
run the removal loop, and persist the document once at the end when
anything was removed. -/
def cleanup_expired (now : Int) (root : Segs) (doc : Doc) (fs : FS) :
    Nat × Doc × FS × List Event :=
  let expired_keys :=
    (doc.filter (fun kr => isExpired now kr.2)).map (fun kr => kr.1)
  let out := sweepLoop root expired_keys doc fs 0 []
  if out.1 ≠ 0 then (out.1, out.2.1, out.2.2.1, out.2.2.2 ++ [Event.persist])
  else out

/-! The upload flow (`upload.py`) and the download flow (`download.py`).
Interactive prompts become parameters; the mutable world is the
filesystem (holding the object store and all other files) plus the
metadata document. -/

/-- The mutable world: filesystem and metadata document. -/
structure SysState where
  fs : FS
  doc : Doc
deriving DecidableEq

/-- Configuration constant `MAX_FILE_SIZE_BYTES` from `config.py`
(500 MB). -/
def MAX_FILE_SIZE_BYTES : Nat := 500 * 1024 * 1024

/-- How `run_upload` reports back to the interactive layer. -/
inductive UploadOutcome : Type
  | cannotRead
  | emptyFile
  | tooLarge
  | securityRejection (reason : List Char)
  | storeFailed
  | success (file_id : List Char)
deriving DecidableEq

/-- Embedding of `upload.run_upload`.  `f` is the source file as `stat`,
the scanner and the record construction see it; `src_path` is its location
in the filesystem; the prompted options, the freshly generated id and key
and the clock reading arrive as parameters.  An expiry of `0` days means
no expiry; otherwise the expiry instant is the upload instant plus the
duration. -/
noncomputable def run_upload (root : Segs) (f : SFile) (src_path : Segs)
    (expiry_days : Nat) (auto_delete : Bool) (note : List Char)
    (file_id : List Char) (encryption_key : Key) (upload_time : Int)
    (st : SysState) : UploadOutcome × SysState :=
  if f.readable = false then (.cannotRead, st)
  else if f.content.length = 0 then (.emptyFile, st)
  else if MAX_FILE_SIZE_BYTES < f.content.length then (.tooLarge, st)
  else
    let scanned := scan_file f
    if scanned.1 = false then (.securityRejection scanned.2, st)
    else
      let expiry_time : Option Int :=
        if expiry_days ≠ 0 then some (upload_time + expiry_days * 86400)
        else none
      match store_file root src_path file_id encryption_key st.fs with
      | (.error _, fs') => (.storeFailed, { st with fs := fs' })
      | (.ok _, fs') =>
          let record : FileRecord :=
            { id := file_id
              original_name := f.name
              stored_name := dropDashes file_id ++ s2c ".sdf"
              size := f.content.length
              upload_time := upload_time
              expiry_time := expiry_time.map some
              download_count := 0
              auto_delete := auto_delete
              encryption_key := encryption_key
              note := note }
          (.success file_id, { fs := fs', doc := save_metadata record st.doc })

/-- How `run_download` reports back to the interactive layer. -/
inductive DownloadOutcome : Type
  | noId
  | invalidFormat
  | recordMissing
  | expired
  | corruptedRecord
  | storedFileMissing
  | retrieveFailed
  | success (dest_path : Segs)
deriving DecidableEq

/-- Steps 5 to 10 of `download.run_download` (after the expiry gate):
key presence check, retrieve, download-counter update, auto-delete. -/
def downloadRest (root : Segs) (file_id : List Char) (record : FileRecord)
    (dest_dir : Segs) (st : SysState) : DownloadOutcome × SysState :=
  if record.encryption_key = [] then (.corruptedRecord, st)
  else
    match retrieve_file root file_id dest_dir record.original_name
        record.encryption_key st.fs with
    | (.error .notFound, fs') => (.storedFileMissing, { st with fs := fs' })
    | (.error _, fs') => (.retrieveFailed, { st with fs := fs' })
    | (.ok dest_path, fs') =>
        let upd := update_metadata file_id
          (fun r => { r with download_count := record.download_count + 1 })
          st.doc
        if record.auto_delete then
          let d := delete_stored_file root file_id fs'
          let dm := delete_metadata file_id upd.2
          (.success dest_path, { fs := d.2, doc := dm.2 })
        else
          (.success dest_path, { fs := fs', doc := upd.2 })

/-- Embedding of `download.run_download`: empty input, format validation,
normalisation, metadata lookup, then the expiry gate — a well-formed
expiry strictly before `now` reports the file expired and, as cleanup,
deletes the stored object and then the metadata record.  A malformed
expiry is ignored (the `ValueError` branch proceeds). -/
def run_download (root : Segs) (raw_id : List Char) (now : Int)
    (dest_dir : Segs) (st : SysState) : DownloadOutcome × SysState :=
  if raw_id = [] then (.noId, st)
  else if is_valid_id_format raw_id = false then (.invalidFormat, st)
  else
    let file_id := normalize_id raw_id
    match get_metadata file_id st.doc with
    | none => (.recordMissing, st)
    | some record =>
        match record.expiry_time with
        | some (some expiry) =>
            if expiry < now then
              let d := delete_stored_file root file_id st.fs
              let dm := delete_metadata file_id st.doc
              (.expired, { fs := d.2, doc := dm.2 })
            else downloadRest root file_id record dest_dir st
        | _ => downloadRest root file_id record dest_dir st

/-- Definition following the claim wording for C7: strip separators and
all whitespace (interior included) from the input, then require exactly
`ID_LENGTH` characters, all from the restricted alphabet. -/
def specValidFormat (input : List Char) : Bool :=
  let stripped := dropDashes (input.filter (fun c => !c.isWhitespace))
  stripped.length = ID_LENGTH && stripped.all (fun c => _ALPHABET.contains c)

/-- An identifier whose dashless form escapes the storage root yet passes
the rendered-string prefix test (a sibling directory of the root whose
name extends the root's name). -/
def evilTraversalId : List Char := s2c "../storage_evil/pwn"

/-- Where `_safe_storage_path` sends `evilTraversalId`: inside the sibling
directory `storage_evil`, outside the storage root. -/
def evilResultPath : Segs :=
  [s2c "home", s2c "user", s2c ".safedrop", s2c "storage_evil", s2c "pwn.sdf"]

/-- A record whose id is lower-case, exercising the save/get key mismatch. -/
def lcRec : FileRecord :=
  { id := s2c "abcd-wxyz-2345", original_name := s2c "t.txt",
    stored_name := s2c "abcdwxyz2345.sdf", size := 3, upload_time := 0,
    expiry_time := none, download_count := 0, auto_delete := false,
    encryption_key := [7], note := [] }

/-- A record with a canonical upper-case id. -/
def ucRec : FileRecord :=
  { id := s2c "ABCD-WXYZ-2345", original_name := s2c "t.txt",
    stored_name := s2c "ABCDWXYZ2345.sdf", size := 3, upload_time := 0,
    expiry_time := none, download_count := 0, auto_delete := false,
    encryption_key := [7], note := [] }

/-- A record expiring at instant 5. -/
def expRec : FileRecord :=
  { id := s2c "ABCD-WXYZ-2345", original_name := s2c "t.txt",
    stored_name := s2c "ABCDWXYZ2345.sdf", size := 3, upload_time := 0,
    expiry_time := some (some 5), download_count := 0, auto_delete := false,
    encryption_key := [7], note := [] }

/-- A record with no expiry under a different id. -/
def keepRec : FileRecord :=
  { id := s2c "EFGH-WXYZ-2345", original_name := s2c "u.txt",
    stored_name := s2c "EFGHWXYZ2345.sdf", size := 3, upload_time := 0,
    expiry_time := none, download_count := 0, auto_delete := false,
    encryption_key := [8], note := [] }

/-- The storage path of `expRec` under `demoRoot`. -/
def expRecPath : Segs :=
  [s2c "home", s2c "user", s2c ".safedrop", s2c "storage",
   s2c "ABCDWXYZ2345.sdf"]

/-- A world holding the object and metadata of `expRec`. -/
def expSt : SysState :=
  ⟨[(expRecPath, Bytes.tok [7] (Bytes.raw [1, 2, 3]))],
   [(s2c "ABCDWXYZ2345", expRec)]⟩

/-- A malicious-looking upload source: executable extension, `MZ` header. -/
def evilExeFile : SFile := ⟨s2c "evil.exe", [77, 90], true⟩

/-- A benign-named file that starts with a shebang. -/
def shebangFile : SFile := ⟨s2c "x.txt", [35, 33, 47, 98], true⟩

/-- A 512-byte constant file (entropy 0). -/
def constFile : SFile := ⟨s2c "a.bin", List.replicate 512 7, true⟩

/-- Boolean list membership used to state which keys a sweep removes. -/
def memB {α : Type} [DecidableEq α] (k : α) : List α → Bool
  | [] => false
  | q :: t => if q = k then true else memB k t

/-! Helper lemmas about the dictionary model. -/

theorem lookupA_setA_self {α β : Type} [DecidableEq α]
    (l : List (α × β)) (k : α) (v : β) : lookupA (setA l k v) k = some v := by
  induction l with
  | nil => simp [setA, lookupA]
  | cons p t ih =>
      obtain ⟨k', v'⟩ := p
      by_cases h : k' = k
      · simp [setA, h, lookupA]
      · simp [setA, h, lookupA, ih]

theorem lookupA_removeA_self {α β : Type} [DecidableEq α]
    (l : List (α × β)) (k : α) : lookupA (removeA l k) k = none := by
  induction l with
  | nil => simp [removeA, lookupA]
  | cons p t ih =>
      obtain ⟨k', v'⟩ := p
      by_cases h : k' = k
      · simpa [removeA, h, lookupA] using ih
      · simpa [removeA, h, lookupA] using ih

theorem lookupA_removeA_ne {α β : Type} [DecidableEq α]
    (l : List (α × β)) (k q : α) (h : q ≠ k) :
    lookupA (removeA l k) q = lookupA l q := by
  induction l with
  | nil => simp [removeA, lookupA]
  | cons p t ih =>
      obtain ⟨k', v'⟩ := p
      by_cases hk : k' = k
      · have hq : ¬ k' = q := fun hh => h (by rw [← hh, hk])
        simp [removeA, hk, lookupA, hq, ih, Ne.symm h]
      · by_cases hq : k' = q
        · simp [removeA, hk, lookupA, hq, h]
        · simp [removeA, hk, lookupA, hq, ih]

theorem lookupA_of_mem_nodup {α β : Type} [DecidableEq α]
    (l : List (α × β)) (p : α × β) (hnd : (l.map Prod.fst).Nodup)
    (hm : p ∈ l) : lookupA l p.1 = some p.2 := by
  induction l with
  | nil => cases hm
  | cons q t ih =>
      obtain ⟨k', v'⟩ := q
      rcases List.mem_cons.mp hm with hm | hm
      · subst hm; simp [lookupA]
      · have hk : k' ≠ p.1 := by
          intro h
          have : p.1 ∈ t.map Prod.fst := List.mem_map_of_mem Prod.fst hm
          rw [← h] at this
          exact (List.nodup_cons.mp hnd).1 this
        simp [lookupA, hk]
        exact ih (List.nodup_cons.mp hnd).2 hm

theorem lookupA_isSome_of_mem_keys {α β : Type} [DecidableEq α]
    (l : List (α × β)) (k : α) (hm : k ∈ l.map Prod.fst) :
    (lookupA l k).isSome = true := by
  induction l with
  | nil => cases hm
  | cons q t ih =>
      obtain ⟨k', v'⟩ := q
      rcases List.mem_cons.mp hm with hm | hm
      · have hk : k' = k := hm.symm
        simp [lookupA, hk]
      · by_cases hk : k' = k
        · simp [lookupA, hk]
        · simp [lookupA, hk]
          exact ih hm

theorem get_metadata_after_delete (file_id : List Char) (doc : Doc) :
    get_metadata file_id (delete_metadata file_id doc).2 = none := by
  unfold get_metadata delete_metadata
  by_cases h : (lookupA doc (toUpperL (dropDashes file_id))).isSome
  · simp [h, lookupA_removeA_self]
  · have hn : lookupA doc (toUpperL (dropDashes file_id)) = none := by
      cases hl : lookupA doc (toUpperL (dropDashes file_id)) with
      | none => rfl
      | some v => rw [hl] at h; simp at h
    simp [h, hn]

theorem delete_stored_file_removes (root : Segs) (file_id : List Char)
    (fs : FS) (p : Segs) (h : _safe_storage_path root file_id = .ok p) :
    lookupA (delete_stored_file root file_id fs).2 p = none := by
  unfold delete_stored_file
  rw [h]
  by_cases hm : (lookupA fs p).isSome
  · simp [hm, lookupA_removeA_self]
  · have hn : lookupA fs p = none := by
      cases hl : lookupA fs p with
      | none => rfl
      | some v => rw [hl] at hm; simp at hm
    simp [hm, hn]

/-- C1: the source intends `_safe_storage_path` to reject every resolved
path outside the storage root, but its `startswith` test compares rendered
strings without a separator, so an identifier resolving into a sibling
directory whose name extends the root's name is accepted: the operation
returns `evilResultPath`, which does not lie lexically under the root. -/
theorem safe_path_accepts_escaping_sibling :
    _safe_storage_path demoRoot evilTraversalId = Except.ok evilResultPath ∧
    liesUnderRoot demoRoot evilResultPath = false := by
  exact ⟨rfl, rfl⟩

/-- C9 counterexample: an identifier whose safe-path computation detects a
traversal (raises `ValueError`) is nevertheless answered by
`delete_stored_file` with the normal return value `False` (nothing
removed) and by `get_storage_path` with `None` — not surfaced as an
error. -/
theorem delete_swallows_detected_traversal :
    _safe_storage_path demoRoot (s2c "../../etc/passwd") =
      Except.error Err.traversal ∧
    delete_stored_file demoRoot (s2c "../../etc/passwd") [] = (false, []) ∧
    get_storage_path demoRoot (s2c "../../etc/passwd") [] = none := by
  exact ⟨rfl, rfl, rfl⟩

/-- C9 amended: a traversal detected by `_safe_storage_path` is fatal and
surfaces as an error for `store_file` and `retrieve_file`, with no change
to the filesystem; `delete_stored_file` converts it into the normal
`False` return and `get_storage_path` into `None`, also without touching
the filesystem; no operation clamps the identifier to a safe path. -/
theorem traversal_error_propagation (root : Segs) (file_id : List Char)
    (fs : FS) (src dest_dir : Segs) (oname : List Char) (k : Key)
    (h : _safe_storage_path root file_id = Except.error Err.traversal) :
    store_file root src file_id k fs = (Except.error Err.traversal, fs) ∧
    retrieve_file root file_id dest_dir oname k fs =
      (Except.error Err.traversal, fs) ∧
    delete_stored_file root file_id fs = (false, fs) ∧
    get_storage_path root file_id fs = none := by
  refine ⟨?_, ?_, ?_, ?_⟩
  · unfold store_file; rw [h]
  · unfold retrieve_file; rw [h]
  · unfold delete_stored_file; rw [h]
  · unfold get_storage_path; rw [h]

/-- C9 witness: the amended behaviour at a concrete crafted identifier. -/
theorem traversal_error_propagation_witness :
    _safe_storage_path demoRoot (s2c "../../etc/passwd") =
      Except.error Err.traversal ∧
    store_file demoRoot [s2c "tmp", s2c "a.txt"] (s2c "../../etc/passwd")
      [7] [] = (Except.error Err.traversal, []) := by
  exact ⟨rfl,
    (traversal_error_propagation demoRoot (s2c "../../etc/passwd") []
      [s2c "tmp", s2c "a.txt"] [s2c "out"] (s2c "a.txt") [7] rfl).1⟩

/-- C5 counterexample: `save_metadata` keys by the dash-stripped id
without upper-casing, so a record whose id is lower-case is stored under a
key that `get_metadata` (which upper-cases) can never produce: the lookup
the claim promises returns nothing. -/
theorem lowercase_saved_record_unreachable :
    get_metadata (s2c "abcd-wxyz-2345") (save_metadata lcRec []) = none := by
  rfl

/-- C5 amended: `save_metadata` upserts under the dash-stripped (not
upper-cased) form of the record's id; whenever that form is already fully
upper-case — as for every id the generator mints — a subsequent
`get_metadata` with any dashed, undashed, lower- or upper-case form of the
id returns the saved record. -/
theorem save_then_get_canonical (r : FileRecord) (doc : Doc)
    (q : List Char) (hupper : toUpperL (dropDashes r.id) = dropDashes r.id)
    (hq : toUpperL (dropDashes q) = dropDashes r.id) :
    get_metadata q (save_metadata r doc) = some r := by
  unfold get_metadata save_metadata
  rw [hq]
  exact lookupA_setA_self doc (dropDashes r.id) r

/-- C5 witness: a canonical upper-case record is found under a lower-case
undashed query. -/
theorem save_then_get_canonical_witness :
    toUpperL (dropDashes ucRec.id) = dropDashes ucRec.id ∧
    toUpperL (dropDashes (s2c "abcdwxyz2345")) = dropDashes ucRec.id ∧
    get_metadata (s2c "abcdwxyz2345") (save_metadata ucRec []) =
      some ucRec := by
  exact ⟨by decide, by decide,
    save_then_get_canonical ucRec [] (s2c "abcdwxyz2345") (by decide)
      (by decide)⟩

/-- C7 counterexample: on an input with interior spaces the claim's
predicate (strip separators and all whitespace, then check length and
alphabet) accepts, but `is_valid_id_format` — which strips only edge
whitespace — rejects. -/
theorem interior_whitespace_rejected :
    specValidFormat (s2c "ABCD EFGH JKLM") = true ∧
    is_valid_id_format (s2c "ABCD EFGH JKLM") = false := by
  exact ⟨by decide, by decide⟩

/-- C7 amended: `is_valid_id_format` returns true iff, after trimming
leading and trailing whitespace, upper-casing, and removing dashes —
interior whitespace is not removed — the string has exactly `ID_LENGTH`
characters and every character lies in the restricted alphabet. -/
theorem valid_format_characterization (input : List Char) :
    is_valid_id_format input = true ↔
      (dropDashes (toUpperL (trimL input))).length = ID_LENGTH ∧
      ∀ c ∈ dropDashes (toUpperL (trimL input)),
        _ALPHABET.contains c = true := by
  unfold is_valid_id_format
  by_cases h : (dropDashes (toUpperL (trimL input))).length = ID_LENGTH
  · simp [h, List.all_eq_true]
  · simp [h]

/-- C7 witness: the characterization evaluated at a canonical id. -/
theorem valid_format_characterization_witness :
    is_valid_id_format (s2c "ABCD-WXYZ-2345") = true := by
  exact (valid_format_characterization (s2c "ABCD-WXYZ-2345")).mpr
    (by decide)

/-- C2: encrypting a stored byte sequence and decrypting under the same
key restores exactly that sequence at the destination; decrypting under
any other key fails with an authentication failure and writes nothing
(the filesystem is returned unchanged, so no partial plaintext exists). -/
theorem encrypt_decrypt_roundtrip (fs : FS) (src enc dec : Segs)
    (k k2 : Key) (b : Bytes) (hsrc : lookupA fs src = some b)
    (hk : k2 ≠ k) :
    (encrypt_file src enc k fs).1 = Except.ok () ∧
    (decrypt_file enc dec k (encrypt_file src enc k fs).2).1 =
      Except.ok () ∧
    lookupA (decrypt_file enc dec k (encrypt_file src enc k fs).2).2 dec =
      some b ∧
    decrypt_file enc dec k2 (encrypt_file src enc k fs).2 =
      (Except.error Err.authFailure, (encrypt_file src enc k fs).2) := by
  have henc : encrypt_file src enc k fs =
      (Except.ok (), setA fs enc (Bytes.tok k b)) := by
    unfold encrypt_file
    rw [hsrc]
    rfl
  rw [henc]
  have hlook : lookupA (setA fs enc (Bytes.tok k b)) enc =
      some (Bytes.tok k b) := lookupA_setA_self fs enc (Bytes.tok k b)
  refine ⟨rfl, ?_, ?_, ?_⟩
  · unfold decrypt_file
    rw [hlook]
    simp [fernetDecrypt]
  · unfold decrypt_file
    rw [hlook]
    simp [fernetDecrypt, lookupA_setA_self]
  · unfold decrypt_file
    rw [hlook]
    simp [fernetDecrypt, Ne.symm hk]

/-- C2 witness: the round trip and the wrong-key failure at concrete
bytes and keys. -/
theorem encrypt_decrypt_roundtrip_witness :
    lookupA ([([s2c "plain.txt"], Bytes.raw [1, 2, 3])] : FS)
      [s2c "plain.txt"] = some (Bytes.raw [1, 2, 3]) ∧
    ([1] : Key) ≠ ([0] : Key) ∧
    lookupA (decrypt_file [s2c "e.sdf"] [s2c "out.txt"] [0]
        (encrypt_file [s2c "plain.txt"] [s2c "e.sdf"] [0]
          [([s2c "plain.txt"], Bytes.raw [1, 2, 3])]).2).2 [s2c "out.txt"] =
      some (Bytes.raw [1, 2, 3]) := by
  exact ⟨rfl, by decide,
    (encrypt_decrypt_roundtrip [([s2c "plain.txt"], Bytes.raw [1, 2, 3])]
      [s2c "plain.txt"] [s2c "e.sdf"] [s2c "out.txt"] [0] [1]
      (Bytes.raw [1, 2, 3]) rfl (by decide)).2.2.1⟩

/-- C4: when the scanner rejects, the upload flow returns the rejection
with the scanner's reason and the world — object store and metadata
document alike — is exactly the input world: no encryption, store write or
metadata write has happened. -/
theorem rejected_upload_is_side_effect_free (root : Segs) (f : SFile)
    (src_path : Segs) (expiry_days : Nat) (auto_delete : Bool)
    (note file_id : List Char) (k : Key) (t : Int) (st : SysState)
    (hr : f.readable = true) (hn : f.content.length ≠ 0)
    (hs : f.content.length ≤ MAX_FILE_SIZE_BYTES)
    (hscan : (scan_file f).1 = false) :
    run_upload root f src_path expiry_days auto_delete note file_id k t st =
      (UploadOutcome.securityRejection (scan_file f).2, st) := by
  unfold run_upload
  simp [hr, hn, Nat.not_lt.mpr hs, hscan]

/-- C4 witness: a rejected executable upload leaves the empty world
empty. -/
theorem rejected_upload_witness :
    (scan_file evilExeFile).1 = false ∧
    run_upload demoRoot evilExeFile [s2c "tmp", s2c "evil.exe"] 0 false []
      (s2c "ABCD-WXYZ-2345") [7] 0 ⟨[], []⟩ =
      (UploadOutcome.securityRejection (scan_file evilExeFile).2,
        ⟨[], []⟩) := by
  exact ⟨by decide,
    rejected_upload_is_side_effect_free demoRoot evilExeFile
      [s2c "tmp", s2c "evil.exe"] 0 false [] (s2c "ABCD-WXYZ-2345") [7] 0
      ⟨[], []⟩ rfl (by decide) (by decide) (by decide)⟩

theorem entropyHigh_iff (sample : List Nat) :
    entropyHigh sample = true ↔
      ENTROPY_THRESHOLD < _calculate_entropy sample := by
  unfold entropyHigh
  exact decide_eq_true_iff

/-- C8: the entropy check never rejects a file shorter than 512 bytes;
for a readable file of at least 512 bytes it rejects exactly when the
Shannon entropy of the leading sample of at most `ENTROPY_SAMPLE_SIZE`
(64 KiB) bytes exceeds the 7.5 threshold. -/
theorem entropy_check_spec (f : SFile) :
    (f.content.length < 512 → (check_entropy f).1 = true) ∧
    (f.readable = true → 512 ≤ f.content.length →
      ((check_entropy f).1 = false ↔
        ENTROPY_THRESHOLD <
          _calculate_entropy (f.content.take ENTROPY_SAMPLE_SIZE))) := by
  constructor
  · intro hlen
    unfold check_entropy
    by_cases hr : f.readable = false
    · simp [hr]
    · simp [hr, hlen]
  · intro hr hlen
    unfold check_entropy
    have hnl : ¬ f.content.length < 512 := Nat.not_lt.mpr hlen
    have hss : ¬ ENTROPY_SAMPLE_SIZE < 512 := by decide
    cases he : entropyHigh (f.content.take ENTROPY_SAMPLE_SIZE) with
    | true =>
        simp [hr, hnl, hss, he]
        exact (entropyHigh_iff _).mp he
    | false =>
        simp [hr, hnl, hss, he]
        have hnot : ¬ ENTROPY_THRESHOLD <
            _calculate_entropy (f.content.take ENTROPY_SAMPLE_SIZE) := by
          intro hc
          rw [← entropyHigh_iff] at hc
          rw [he] at hc
          cases hc
        exact le_of_not_lt hnot

/-- C8 witness: a readable 512-byte constant file is within the regime of
the second part of the theorem. -/
theorem entropy_check_spec_witness :
    constFile.readable = true ∧ 512 ≤ constFile.content.length ∧
    ((check_entropy constFile).1 = false ↔
      ENTROPY_THRESHOLD <
        _calculate_entropy (constFile.content.take ENTROPY_SAMPLE_SIZE)) := by
  exact ⟨rfl, by simp [constFile],
    (entropy_check_spec constFile).2 rfl (by simp [constFile])⟩

/-- C3: the scanner accepts exactly when all four checks pass, and
otherwise returns the result — in particular the reason — of the first
failing check in the fixed order extension, signature, entropy, pattern;
the short-circuit equalities render the fact that later checks do not
influence (and in the loop are never run after) the first failure. -/
theorem scan_pipeline_characterization (f : SFile) :
    ((scan_file f).1 = true ↔
      (check_extension f).1 = true ∧ (check_magic_bytes f).1 = true ∧
      (check_entropy f).1 = true ∧ (check_script_patterns f).1 = true) ∧
    ((check_extension f).1 = false → scan_file f = check_extension f) ∧
    ((check_extension f).1 = true → (check_magic_bytes f).1 = false →
      scan_file f = check_magic_bytes f) ∧
    ((check_extension f).1 = true → (check_magic_bytes f).1 = true →
      (check_entropy f).1 = false → scan_file f = check_entropy f) ∧
    ((check_extension f).1 = true → (check_magic_bytes f).1 = true →
      (check_entropy f).1 = true → (check_script_patterns f).1 = false →
      scan_file f = check_script_patterns f) := by
  cases h1 : (check_extension f).1 <;>
    cases h2 : (check_magic_bytes f).1 <;>
      cases h3 : (check_entropy f).1 <;>
        cases h4 : (check_script_patterns f).1 <;>
          simp [scan_file, scanChecks, runChecks, h1, h2, h3, h4]

/-- C3 witness: a file whose extension passes but whose signature check
fires; the scanner verdict is that check's verdict. -/
theorem scan_pipeline_witness :
    (check_extension shebangFile).1 = true ∧
    (check_magic_bytes shebangFile).1 = false ∧
    scan_file shebangFile = check_magic_bytes shebangFile := by
  exact ⟨by decide, by decide,
    (scan_pipeline_characterization shebangFile).2.2.1 (by decide)
      (by decide)⟩

/-- C10: a download with a valid-format id whose record exists and whose
well-formed expiry lies strictly before the clock reading fails as
expired, and afterwards the metadata record is gone and the stored object
file is gone from the filesystem. -/
theorem expired_download_deletes (root : Segs) (raw_id : List Char)
    (now t : Int) (dest_dir : Segs) (st : SysState) (record : FileRecord)
    (hfmt : is_valid_id_format raw_id = true)
    (hrec : get_metadata (normalize_id raw_id) st.doc = some record)
    (hexp : record.expiry_time = some (some t)) (ht : t < now) :
    (run_download root raw_id now dest_dir st).1 = DownloadOutcome.expired ∧
    get_metadata (normalize_id raw_id)
      (run_download root raw_id now dest_dir st).2.doc = none ∧
    ∀ p, _safe_storage_path root (normalize_id raw_id) = Except.ok p →
      lookupA (run_download root raw_id now dest_dir st).2.fs p = none := by
  have hne : raw_id ≠ [] := by
    intro h
    rw [h] at hfmt
    exact absurd hfmt (by decide)
  have hrun : run_download root raw_id now dest_dir st =
      (.expired,
        ⟨(delete_stored_file root (normalize_id raw_id) st.fs).2,
         (delete_metadata (normalize_id raw_id) st.doc).2⟩) := by
    unfold run_download
    simp [hne, hfmt, hrec, hexp, ht]
  rw [hrun]
  exact ⟨rfl, get_metadata_after_delete _ _,
    fun p hp => delete_stored_file_removes root (normalize_id raw_id)
      st.fs p hp⟩

theorem memB_eq_true_iff {α : Type} [DecidableEq α] (k : α)
    (ks : List α) : memB k ks = true ↔ k ∈ ks := by
  induction ks with
  | nil => simp [memB]
  | cons q t ih =>
      by_cases hq : q = k
      · simp [memB, hq]
      · simp [memB, hq, ih, Ne.symm hq]

theorem removeA_filter_comm {α β : Type} [DecidableEq α]
    (doc : List (α × β)) (k : α) (ks : List α) :
    (removeA doc k).filter (fun kr => !memB kr.1 ks) =
      doc.filter (fun kr => !memB kr.1 (k :: ks)) := by
  induction doc with
  | nil => simp [removeA]
  | cons p t ihd =>
      obtain ⟨k', v'⟩ := p
      by_cases hk : k' = k
      · subst hk
        simp [removeA, List.filter_cons, memB, ihd]
      · simp only [removeA, if_neg hk, List.filter_cons]
        have hmb : memB k' (k :: ks) = memB k' ks := by
          simp [memB, Ne.symm hk]
        simp only [hmb]
        rw [ihd]

theorem sweepLoop_spec (root : Segs) (ks : List (List Char)) :
    ∀ (doc : Doc) (fs : FS) (removed : Nat) (evs : List Event),
    ks.Nodup →
    (∀ k ∈ ks, (lookupA doc k).isSome = true) →
    (sweepLoop root ks doc fs removed evs).1 = removed + ks.length ∧
    (sweepLoop root ks doc fs removed evs).2.1 =
      doc.filter (fun kr => !memB kr.1 ks) ∧
    (sweepLoop root ks doc fs removed evs).2.2.2 =
      evs ++ (ks.map (fun k =>
        match lookupA doc k with
        | some r => [Event.delObj r.id, Event.delMeta k]
        | none => [])).join := by
  induction ks with
  | nil =>
      intro doc fs removed evs _ _
      refine ⟨by simp [sweepLoop], ?_, by simp [sweepLoop]⟩
      simp [sweepLoop, memB]
  | cons k rest ih =>
      intro doc fs removed evs hnd hmem
      obtain ⟨r, hr⟩ := Option.isSome_iff_exists.mp
        (hmem k (List.mem_cons_self k rest))
      have hknotin : k ∉ rest := (List.nodup_cons.mp hnd).1
      have hndr : rest.Nodup := (List.nodup_cons.mp hnd).2
      have hmem' : ∀ q ∈ rest, (lookupA (removeA doc k) q).isSome = true := by
        intro q hq
        rw [lookupA_removeA_ne doc k q (fun h => hknotin (h ▸ hq))]
        exact hmem q (List.mem_cons_of_mem _ hq)
      have step : sweepLoop root (k :: rest) doc fs removed evs =
          sweepLoop root rest (removeA doc k)
            (delete_stored_file root r.id fs).2 (removed + 1)
            (evs ++ [Event.delObj r.id, Event.delMeta k]) := by
        rw [show sweepLoop root (k :: rest) doc fs removed evs =
            (match lookupA doc k with
             | none => sweepLoop root rest doc fs removed evs
             | some record =>
                 sweepLoop root rest (removeA doc k)
                   (delete_stored_file root record.id fs).2 (removed + 1)
                   (evs ++ [Event.delObj record.id, Event.delMeta k])) from
            rfl, hr]
      rw [step]
      obtain ⟨ihc, ihd, ihe⟩ := ih (removeA doc k)
        (delete_stored_file root r.id fs).2 (removed + 1)
        (evs ++ [Event.delObj r.id, Event.delMeta k]) hndr hmem'
      refine ⟨?_, ?_, ?_⟩
      · rw [ihc]
        simp [List.length_cons]
        omega
      · rw [ihd]
        exact removeA_filter_comm doc k rest
      · rw [ihe]
        have hmaps : rest.map (fun q =>
            match lookupA (removeA doc k) q with
            | some rr => [Event.delObj rr.id, Event.delMeta q]
            | none => []) =
          rest.map (fun q =>
            match lookupA doc q with
            | some rr => [Event.delObj rr.id, Event.delMeta q]
            | none => []) := by
          apply List.map_congr_left
          intro q hq
          rw [lookupA_removeA_ne doc k q (fun h => hknotin (h ▸ hq))]
        rw [hmaps]
        simp [hr, List.append_assoc]

/-- C6: the expiry sweep removes exactly the records whose well-formed
`expiry_time` is at or before the clock reading, preserving the other
entries of the document in order; it returns the number of removed
records; and its side-effect trace shows, for each removed record, the
object-store delete for the record's id immediately before the removal of
its metadata entry, with a single document persist as the last action
exactly when anything was removed. -/
theorem sweep_expired_spec (now : Int) (root : Segs) (doc : Doc) (fs : FS)
    (hnd : (doc.map Prod.fst).Nodup) :
    (cleanup_expired now root doc fs).1 =
      (doc.filter (fun kr => isExpired now kr.2)).length ∧
    (cleanup_expired now root doc fs).2.1 =
      doc.filter (fun kr => !isExpired now kr.2) ∧
    (cleanup_expired now root doc fs).2.2.2 =
      ((doc.filter (fun kr => isExpired now kr.2)).map
        (fun kr => [Event.delObj kr.2.id, Event.delMeta kr.1])).join ++
      (if (doc.filter (fun kr => isExpired now kr.2)).length ≠ 0 then
        [Event.persist] else []) := by
  have hks : ((doc.filter (fun kr => isExpired now kr.2)).map
      (fun kr => kr.1)).Nodup :=
    List.Sublist.nodup
      ((List.filter_sublist doc).map (fun kr => kr.1)) hnd
  have hmemk : ∀ k ∈ (doc.filter (fun kr => isExpired now kr.2)).map
      (fun kr => kr.1), (lookupA doc k).isSome = true := by
    intro k hk
    obtain ⟨kr, hkr, hkey⟩ := List.mem_map.mp hk
    rw [← hkey]
    exact lookupA_isSome_of_mem_keys doc kr.1
      (List.mem_map_of_mem _ (List.mem_of_mem_filter hkr))
  obtain ⟨hc, hd, he⟩ := sweepLoop_spec root
    ((doc.filter (fun kr => isExpired now kr.2)).map (fun kr => kr.1))
    doc fs 0 [] hks hmemk
  have hlen : ((doc.filter (fun kr => isExpired now kr.2)).map
      (fun kr => kr.1)).length =
      (doc.filter (fun kr => isExpired now kr.2)).length :=
    List.length_map _ _
  have hinj : ∀ kr ∈ doc,
      kr.1 ∈ (doc.filter (fun kr => isExpired now kr.2)).map
        (fun kr => kr.1) → isExpired now kr.2 = true := by
    intro kr hkr hin
    obtain ⟨kr', hkr', hkey⟩ := List.mem_map.mp hin
    have h1 := lookupA_of_mem_nodup doc kr hnd hkr
    have h2 := lookupA_of_mem_nodup doc kr' hnd
      (List.mem_of_mem_filter hkr')
    rw [hkey, h1] at h2
    have hval : kr.2 = kr'.2 := Option.some.inj h2
    have he' : isExpired now kr'.2 = true := (List.mem_filter.mp hkr').2
    rw [hval]
    exact he'
  have hdocfix : doc.filter (fun kr =>
        !memB kr.1 ((doc.filter (fun kr => isExpired now kr.2)).map
          (fun kr => kr.1))) =
      doc.filter (fun kr => !isExpired now kr.2) := by
    apply List.filter_congr
    intro kr hkr
    by_cases hexp : isExpired now kr.2 = true
    · have hmem2 : kr.1 ∈ (doc.filter (fun kr => isExpired now kr.2)).map
          (fun kr => kr.1) :=
        List.mem_map_of_mem _ (List.mem_filter.mpr ⟨hkr, hexp⟩)
      have hmb := (memB_eq_true_iff kr.1 _).mpr hmem2
      rw [hmb, hexp]
    · have hmb : memB kr.1 ((doc.filter (fun kr => isExpired now kr.2)).map
          (fun kr => kr.1)) = false := by
        cases hq : memB kr.1 ((doc.filter
            (fun kr => isExpired now kr.2)).map (fun kr => kr.1)) with
        | false => rfl
        | true =>
            exact absurd (hinj kr hkr ((memB_eq_true_iff kr.1 _).mp hq)) hexp
      rw [hmb]
      cases hq2 : isExpired now kr.2 with
      | false => rfl
      | true => exact absurd hq2 hexp
  have hevfix : ((doc.filter (fun kr => isExpired now kr.2)).map
        (fun kr => kr.1)).map (fun k =>
          match lookupA doc k with
          | some r => [Event.delObj r.id, Event.delMeta k]
          | none => []) =
      (doc.filter (fun kr => isExpired now kr.2)).map
        (fun kr => [Event.delObj kr.2.id, Event.delMeta kr.1]) := by
    rw [List.map_map]
    apply List.map_congr_left
    intro kr hkr
    have hl := lookupA_of_mem_nodup doc kr hnd
      (List.mem_of_mem_filter hkr)
    simp [Function.comp, hl]
  have hcl : cleanup_expired now root doc fs =
      (if (sweepLoop root
          ((doc.filter (fun kr => isExpired now kr.2)).map (fun kr => kr.1))
          doc fs 0 []).1 ≠ 0 then
        ((sweepLoop root ((doc.filter (fun kr => isExpired now kr.2)).map
            (fun kr => kr.1)) doc fs 0 []).1,
         (sweepLoop root ((doc.filter (fun kr => isExpired now kr.2)).map
            (fun kr => kr.1)) doc fs 0 []).2.1,
         (sweepLoop root ((doc.filter (fun kr => isExpired now kr.2)).map
            (fun kr => kr.1)) doc fs 0 []).2.2.1,
         (sweepLoop root ((doc.filter (fun kr => isExpired now kr.2)).map
            (fun kr => kr.1)) doc fs 0 []).2.2.2 ++ [Event.persist])
      else sweepLoop root
        ((doc.filter (fun kr => isExpired now kr.2)).map (fun kr => kr.1))
        doc fs 0 []) := rfl
  by_cases h0 : (sweepLoop root
      ((doc.filter (fun kr => isExpired now kr.2)).map (fun kr => kr.1))
      doc fs 0 []).1 ≠ 0
  · have h0' : (doc.filter (fun kr => isExpired now kr.2)).length ≠ 0 := by
      intro hh
      exact h0 (by rw [hc, hlen, hh])
    rw [hcl]
    rw [if_pos h0]
    refine ⟨?_, ?_, ?_⟩
    · rw [hc, hlen]
      omega
    · rw [hd, hdocfix]
    · rw [he, hevfix]
      rw [if_pos h0']
      simp only [List.nil_append]
  · have hz : (sweepLoop root
        ((doc.filter (fun kr => isExpired now kr.2)).map (fun kr => kr.1))
        doc fs 0 []).1 = 0 := not_not.mp h0
    have hfz : (doc.filter (fun kr => isExpired now kr.2)).length = 0 := by
      have hzz := hz
      rw [hc, hlen] at hzz
      omega
    have h0' : ¬ (doc.filter (fun kr => isExpired now kr.2)).length ≠ 0 :=
      fun hh => hh hfz
    rw [hcl]
    rw [if_neg h0]
    refine ⟨?_, ?_, ?_⟩
    · rw [hc, hlen]
      omega
    · rw [hd, hdocfix]
    · rw [he, hevfix]
      rw [if_neg h0']
      simp only [List.nil_append, List.append_nil]

/-- C6 witness: a two-record document (one expired, one without expiry)
under a concrete clock: one removal, ordered delete-object /
delete-metadata events, one final persist, untouched survivor. -/
theorem sweep_expired_spec_witness :
    (([(s2c "ABCDWXYZ2345", expRec), (s2c "EFGHWXYZ2345", keepRec)] :
        Doc).map Prod.fst).Nodup ∧
    (cleanup_expired 10 demoRoot
      [(s2c "ABCDWXYZ2345", expRec), (s2c "EFGHWXYZ2345", keepRec)]
      expSt.fs).2.1 =
      ([(s2c "ABCDWXYZ2345", expRec), (s2c "EFGHWXYZ2345", keepRec)] :
        Doc).filter (fun kr => !isExpired 10 kr.2) := by
  exact ⟨by decide,
    (sweep_expired_spec 10 demoRoot
      [(s2c "ABCDWXYZ2345", expRec), (s2c "EFGHWXYZ2345", keepRec)]
      expSt.fs (by decide)).2.1⟩

/-- C10 witness: the expiry cleanup at a concrete world whose single
record expired at instant 5 and whose clock reads 10. -/
theorem expired_download_deletes_witness :
    is_valid_id_format (s2c "ABCD-WXYZ-2345") = true ∧
    get_metadata (normalize_id (s2c "ABCD-WXYZ-2345")) expSt.doc =
      some expRec ∧
    expRec.expiry_time = some (some 5) ∧ ((5 : Int) < 10) ∧
    (run_download demoRoot (s2c "ABCD-WXYZ-2345") 10 [s2c "out"] expSt).1 =
      DownloadOutcome.expired := by
  exact ⟨by decide, by rfl, by rfl, by decide,
    (expired_download_deletes demoRoot (s2c "ABCD-WXYZ-2345") 10 5
      [s2c "out"] expSt expRec (by decide) (by rfl) (by rfl)
      (by decide)).1⟩

end SafeDrop
